import Mathlib

/-!
Verification of the KPI aggregation and caching engine of the
ops-pilot-enterprise-backend repository (src/src/kpi/routes.ts).

The TypeScript handlers are embedded shallowly: JavaScript numbers are
modelled as rationals (ℚ), dates as integer epoch milliseconds (ℤ), and
`parseFloat(x.toFixed(2))` as rounding to two decimals (half-up).
The org-level handler (GET /kpi/org), the team-level handler
(GET /kpi/team/:workflowId?) and the metric primitives they contain are
translated definition by definition from the source; the node-cache backed
KPI cache, whose implementation is not part of the repository, is modelled
from the specification's description of it.
-/

namespace KPI

/-- `parseFloat(x.toFixed(2))`: round to two decimal places, half up. -/
def round2 (q : ℚ) : ℚ := (round (q * 100) : ℚ) / 100

/-- Status test used throughout routes.ts:
`t.status === 'DONE' || t.status === 'COMPLETED'`. -/
def isCompleted (s : String) : Bool := s == "DONE" || s == "COMPLETED"

/-- The completion-rate pattern shared by every use site in routes.ts:
`total > 0 ? (completed / total) * 100 : 0`, then
`parseFloat(rate.toFixed(2))`. -/
def rate2 (completed total : ℕ) : ℚ :=
  round2 (if 0 < total then ((completed : ℚ) / total) * 100 else 0)

/-- `Math.ceil((endMs - startMs) / (1000 * 60 * 60 * 24))` on epoch
milliseconds (routes.ts lines 116-118 and 326-328). -/
def durationDays (startMs endMs : ℤ) : ℤ :=
  ⌈(((endMs - startMs : ℤ) : ℚ)) / 86400000⌉

/-- The per-employee efficiency of routes.ts lines 381-383:
`parseFloat((totalCompletedTasks / (totalTimeSpent || 1) * 10).toFixed(2))`.
JavaScript `h || 1` yields `1` only when `h` is `0`; otherwise it is `h`. -/
def efficiency (c : ℕ) (h : ℚ) : ℚ :=
  round2 ((c : ℚ) / (if h = 0 then 1 else h) * 10)

/-- The efficiency formula as the specification words it:
`completedCount / max(totalHoursSpent, 1) × 10`, rounded to two decimals.
Kept separate so it can be compared with the source's `efficiency`. -/
def efficiencySpec (c : ℕ) (h : ℚ) : ℚ :=
  round2 ((c : ℚ) / max h 1 * 10)

/-! ### The KPI cache

Modelled from the spec: the cache itself is the node-cache library
(`new NodeCache({ stdTTL: 86400 })`, routes.ts line 55), whose
implementation is not part of this repository.  Per the specification: a
cache entry records the value, its creation time and its TTL; `set` stores
with the fixed default TTL of 86,400 seconds starting at the moment of the
call; `get` is absent both on a true miss and on TTL expiry (an entry older
than its TTL is treated as absent); `flushAll` unconditionally evicts every
entry.  Times are in seconds. -/

structure CacheEntry (V : Type) where
  value : V
  setTime : ℕ
  ttl : ℕ
  deriving Repr, DecidableEq

/-- Modelled from the spec: the state of the node-cache instance, newest
entry first (a later `set` of the same key shadows the older entry). -/
abbrev Cache (V : Type) : Type := List (String × CacheEntry V)

/-- Modelled from the spec: `set(scopeKey, value)` stores with the fixed
default TTL of 86,400 seconds, starting from the moment of the call. -/
def cacheSet {V : Type} (c : Cache V) (k : String) (v : V) (now : ℕ) : Cache V :=
  (k, ⟨v, now, 86400⟩) :: c

/-- Modelled from the spec: `get(scopeKey)` returns the stored value, or
absent both on a true miss and on TTL expiry. -/
def cacheGet {V : Type} (c : Cache V) (k : String) (now : ℕ) : Option V :=
  match c.find? (fun e => e.1 == k) with
  | some e => if now < e.2.setTime + e.2.ttl then some e.2.value else none
  | none => none

/-- Modelled from the spec: `flushAll()` unconditionally evicts every entry
regardless of TTL. -/
def cacheFlushAll {V : Type} (_c : Cache V) : Cache V := []

/-! ### Organization dashboard (GET /kpi/org, routes.ts lines 58-221)

Only the data the handler reads is modelled: a project carries its id, its
creation instant and its workflows' task lists; a task carries its status
and its last-update instant. -/

structure OrgTask where
  status : String
  updatedAt : ℤ
  deriving Repr, DecidableEq

structure OrgProject where
  id : String
  createdAt : ℤ
  workflows : List (List OrgTask)
  deriving Repr, DecidableEq

/-- `project.workflows.flatMap(wf => wf.tasks)` (routes.ts line 89). -/
def projectTasks (p : OrgProject) : List OrgTask := p.workflows.flatten

/-- The per-project completion rate pushed at routes.ts lines 96-104. -/
def projectCompletionRate (tasks : List OrgTask) : ℚ :=
  rate2 ((tasks.filter (fun t => isCompleted t.status)).length) tasks.length

/-- The per-workflow completion rate of the team-performance block
(routes.ts lines 168-187), as a function of the workflow's task statuses. -/
def workflowCompletionRate (statuses : List String) : ℚ :=
  rate2 ((statuses.filter isCompleted).length) statuses.length

/-- Accumulator of the per-project loop (routes.ts lines 80-129). -/
structure OrgAcc where
  totalTasks : ℕ
  completedTasks : ℕ
  inProgressTasks : ℕ
  projectCompletionRates : List (String × ℚ)
  projectDurations : List (String × ℤ)
  deriving Repr, DecidableEq

/-- One iteration of `for (const project of projects)`
(routes.ts lines 87-129): projects with zero tasks are skipped entirely;
otherwise the counts are accumulated, the rounded completion rate is
pushed, and — when the task-date list is non-empty — the project duration
`ceil((latest task update − project creation) / day)` is pushed. -/
def orgStep (acc : OrgAcc) (p : OrgProject) : OrgAcc :=
  let tasks := projectTasks p
  if 0 < tasks.length then
    let acc1 : OrgAcc :=
      { acc with
        totalTasks := acc.totalTasks + tasks.length
        completedTasks :=
          acc.completedTasks + (tasks.filter (fun t => isCompleted t.status)).length
        inProgressTasks :=
          acc.inProgressTasks + (tasks.filter (fun t => t.status == "IN_PROGRESS")).length
        projectCompletionRates :=
          acc.projectCompletionRates ++ [(p.id, projectCompletionRate tasks)] }
    match (tasks.map (fun t => t.updatedAt)).max? with
    | some latest =>
        { acc1 with
          projectDurations :=
            acc1.projectDurations ++ [(p.id, durationDays p.createdAt latest)] }
    | none => acc1
  else acc

/-- The whole per-project loop, starting from all-zero accumulators. -/
def orgAgg (ps : List OrgProject) : OrgAcc :=
  ps.foldl orgStep ⟨0, 0, 0, [], []⟩

/-- `overallCompletionRate` (routes.ts lines 132-134, rounded at 201):
computed from the organization-wide totals. -/
def orgOverall (ps : List OrgProject) : ℚ :=
  rate2 (orgAgg ps).completedTasks (orgAgg ps).totalTasks

/-! ### Team dashboard (GET /kpi/team/:workflowId?, routes.ts lines 224-419)

The input is the list of assigned tasks in scope (the `where` clause:
organization- or workflow-scoped, `assigneeId` non-null).  A task carries
its assignee, status, creation/update instants and its internal and
external time logs; a log entry carries its owning user and its hours. -/

structure LogEntry where
  userId : String
  hours : ℚ
  deriving Repr, DecidableEq

structure TTask where
  id : String
  assigneeId : String
  status : String
  createdAt : ℤ
  updatedAt : ℤ
  timeLogs : List LogEntry
  externalLogs : List LogEntry
  deriving Repr, DecidableEq

/-- The completed tasks fetched at routes.ts lines 252-285:
`status: { in: ['DONE', 'COMPLETED'] }` within the scope. -/
def completedOf (ts : List TTask) : List TTask :=
  ts.filter (fun t => isCompleted t.status)

/-- Routes.ts lines 321-323: `timeLogHours + externalLogHours`, each a
reduce of `log.hours || 0` over ALL of the task's log entries — there is
no filter on the log's owning user. -/
def taskHours (t : TTask) : ℚ :=
  (t.timeLogs.map (fun l => l.hours)).sum + (t.externalLogs.map (fun l => l.hours)).sum

/-- The per-task record pushed at routes.ts lines 333-342 (the fields the
claims read). -/
structure TaskRec where
  taskId : String
  completionTimeDays : ℤ
  timeSpentHours : ℚ
  deriving Repr, DecidableEq

def mkTaskRec (t : TTask) : TaskRec :=
  ⟨t.id, durationDays t.createdAt t.updatedAt, taskHours t⟩

/-- The per-assignee accumulator of `employeePerformance` during the first
pass (routes.ts lines 305-343). -/
structure EmpAcc where
  assigneeId : String
  totalCompletedTasks : ℕ
  totalTimeSpent : ℚ
  tasks : List TaskRec
  deriving Repr, DecidableEq

/-- The unconditional `+= 1`, `+= totalHoursSpent`, `tasks.push(...)` of
routes.ts lines 330-342. -/
def updAcc (t : TTask) (e : EmpAcc) : EmpAcc :=
  { e with
    totalCompletedTasks := e.totalCompletedTasks + 1
    totalTimeSpent := e.totalTimeSpent + taskHours t
    tasks := e.tasks ++ [mkTaskRec t] }

/-- One iteration of `completedTasks.forEach` (routes.ts lines 307-343).
The JavaScript object `employeePerformance` is modelled as an association
list in key-insertion order: a missing key is initialised to zeros
(lines 310-318) and then updated; an existing key is updated in place. -/
def stepTask (acc : List EmpAcc) (t : TTask) : List EmpAcc :=
  if acc.any (fun e => e.assigneeId == t.assigneeId) then
    acc.map (fun e => if e.assigneeId == t.assigneeId then updAcc t e else e)
  else
    acc ++ [updAcc t ⟨t.assigneeId, 0, 0, []⟩]

/-- The whole first pass: fold every completed task in scope. -/
def employeePerformance (ts : List TTask) : List EmpAcc :=
  (completedOf ts).foldl stepTask []

/-- The `totalTimeSpent` recorded for assignee `a` (0 when absent). -/
def timeSpentOf (l : List EmpAcc) (a : String) : ℚ :=
  match l.find? (fun e => e.assigneeId == a) with
  | some e => e.totalTimeSpent
  | none => 0

/-- `prisma.task.groupBy({ by: ['assigneeId'], _count: { id: true } })`
(routes.ts lines 288-302): one row per distinct assignee with its task
count. -/
def groupCount (ts : List TTask) : List (String × ℕ) :=
  ((ts.map (fun t => t.assigneeId)).dedup).map
    (fun a => (a, ts.countP (fun t => t.assigneeId == a)))

/-- `entry ? entry._count.id : 0` after
`find(entry => entry.assigneeId === assigneeId)`
(routes.ts lines 350-355). -/
def lookupCount (g : List (String × ℕ)) (a : String) : ℕ :=
  match g.find? (fun e => e.1 == a) with
  | some e => e.2
  | none => 0

/-- The finished per-assignee record of the second pass
(routes.ts lines 346-385). -/
structure Employee where
  assigneeId : String
  totalCompletedTasks : ℕ
  totalTimeSpent : ℚ
  tasks : List TaskRec
  totalTasks : ℕ
  completedTasks : ℕ
  completionRate : ℚ
  averageCompletionTimeDays : ℚ
  averageTimePerTaskHours : ℚ
  efficiency : ℚ
  deriving Repr, DecidableEq

/-- The second pass per assignee (routes.ts lines 346-385): look up the
grouped totals (0 on a miss), then derive completionRate,
averageCompletionTimeDays, averageTimePerTaskHours and efficiency. -/
def deriveEmployee (ts : List TTask) (e : EmpAcc) : Employee :=
  let totalTasks := lookupCount (groupCount ts) e.assigneeId
  let completedTasks := lookupCount (groupCount (completedOf ts)) e.assigneeId
  { assigneeId := e.assigneeId
    totalCompletedTasks := e.totalCompletedTasks
    totalTimeSpent := e.totalTimeSpent
    tasks := e.tasks
    totalTasks := totalTasks
    completedTasks := completedTasks
    completionRate := rate2 completedTasks totalTasks
    averageCompletionTimeDays :=
      round2 (if 0 < e.totalCompletedTasks then
        (((e.tasks.map (fun r => r.completionTimeDays)).sum : ℤ) : ℚ) / e.totalCompletedTasks
      else 0)
    averageTimePerTaskHours :=
      round2 (if 0 < e.totalCompletedTasks then
        e.totalTimeSpent / e.totalCompletedTasks
      else 0)
    efficiency := efficiency e.totalCompletedTasks e.totalTimeSpent }

/-- `.sort((a, b) => b.efficiency - a.efficiency)` (routes.ts
lines 388-389): descending by efficiency. -/
def sortDesc (l : List Employee) : List Employee :=
  l.mergeSort (fun a b => decide (b.efficiency ≤ a.efficiency))

/-- The assembled `teamData` payload (routes.ts lines 391-408); the stats
denominators are `employeeArray.length || 1`. -/
structure TeamData where
  employees : List Employee
  topPerformers : List Employee
  totalEmployees : ℕ
  averageCompletionRate : ℚ
  averageEfficiency : ℚ
  deriving Repr, DecidableEq

def teamDashboard (ts : List TTask) : TeamData :=
  let arr := sortDesc ((employeePerformance ts).map (deriveEmployee ts))
  { employees := arr
    topPerformers := arr.take 5
    totalEmployees := arr.length
    averageCompletionRate :=
      round2 (((arr.map (fun e => e.completionRate)).sum) /
        (if arr.length = 0 then 1 else (arr.length : ℚ)))
    averageEfficiency :=
      round2 (((arr.map (fun e => e.efficiency)).sum) /
        (if arr.length = 0 then 1 else (arr.length : ℚ))) }

/-! ### Concrete instances used by counterexamples, scenarios and
witnesses -/

/-- A completed task assigned to alice whose only time log belongs to bob
(a helper), with 5 hours on it. -/
def tC1 : TTask := ⟨"t1", "alice", "DONE", 0, 0, [⟨"bob", 5⟩], []⟩

/-- Spec scenario §7: project A with 4 tasks, 2 of them DONE. -/
def projA : OrgProject :=
  ⟨"A", 0, [[⟨"DONE", 1⟩, ⟨"DONE", 2⟩, ⟨"TODO", 3⟩, ⟨"TODO", 4⟩]]⟩

/-- Spec scenario §7: project B with no tasks at all. -/
def projB : OrgProject := ⟨"B", 0, []⟩

/-- A one-task scope: alice has completed her single assigned task. -/
def ts1 : List TTask := [⟨"t1", "alice", "DONE", 0, 0, [], []⟩]

/-- The sole employee row of the dashboard over `ts1`. -/
def e1 : Employee :=
  ((teamDashboard ts1).employees).headD ⟨"", 0, 0, [], 0, 0, 0, 0, 0, 0⟩

/-! ### Evaluation helpers for `round2` -/

theorem round2_zero : round2 0 = 0 := by
  simp [round2]

theorem round2_natCast (n : ℕ) : round2 (n : ℚ) = n := by
  have h : ((n : ℚ)) * 100 = ((n * 100 : ℕ) : ℚ) := by push_cast; ring
  rw [round2, h, round_natCast]
  push_cast
  ring

theorem round2_intCast (z : ℤ) : round2 (z : ℚ) = z := by
  have h : ((z : ℚ)) * 100 = ((z * 100 : ℤ) : ℚ) := by push_cast; ring
  rw [round2, h, round_intCast]
  push_cast
  ring

theorem round2_nonneg {q : ℚ} (hq : 0 ≤ q) : 0 ≤ round2 q := by
  have h : (0 : ℤ) ≤ round (q * 100) := by
    rw [round_eq]
    rw [Int.le_floor]
    push_cast
    nlinarith
  rw [round2]
  exact div_nonneg (by exact_mod_cast h) (by norm_num)

theorem round2_le_hundred {q : ℚ} (hq : q ≤ 100) : round2 q ≤ 100 := by
  have h : round (q * 100) ≤ 10000 := by
    rw [round_eq]
    have : (⌊q * 100 + 1 / 2⌋ : ℤ) ≤ ⌊(10000 : ℚ) + 1 / 2⌋ := by
      apply Int.floor_le_floor
      nlinarith
    have h2 : (⌊(10000 : ℚ) + 1 / 2⌋ : ℤ) = 10000 := by
      rw [Int.floor_eq_iff]
      norm_num
    omega
  rw [round2]
  rw [div_le_iff₀ (by norm_num : (0 : ℚ) < 100)]
  calc (round (q * 100) : ℚ) ≤ (10000 : ℚ) := by exact_mod_cast h
    _ = 100 * 100 := by norm_num

/-! ### Characterization of the first-pass fold -/

theorem timeSpentOf_nil (a : String) : timeSpentOf [] a = 0 := rfl

theorem timeSpentOf_cons (e : EmpAcc) (l : List EmpAcc) (a : String) :
    timeSpentOf (e :: l) a
      = if e.assigneeId == a then e.totalTimeSpent else timeSpentOf l a := by
  cases he : e.assigneeId == a <;>
    simp [timeSpentOf, List.find?, he]

theorem timeSpentOf_map_ne (l : List EmpAcc) (t : TTask) (a : String)
    (hne : t.assigneeId ≠ a) :
    timeSpentOf (l.map (fun e => if e.assigneeId == t.assigneeId then updAcc t e else e)) a
      = timeSpentOf l a := by
  induction l with
  | nil => rfl
  | cons e l ih =>
    rw [List.map_cons, timeSpentOf_cons, timeSpentOf_cons]
    by_cases he : (e.assigneeId == t.assigneeId) = true
    · have heq : e.assigneeId = t.assigneeId := by simpa [beq_iff_eq] using he
      rw [if_pos he]
      have h1 : ((updAcc t e).assigneeId == a) = (e.assigneeId == a) := rfl
      rw [h1]
      have h2 : (e.assigneeId == a) = false := by
        simp [beq_iff_eq, heq, hne]
      rw [h2, ih]
      simp
    · rw [if_neg he, ih]

theorem timeSpentOf_map_eq (l : List EmpAcc) (t : TTask)
    (h : l.any (fun e => e.assigneeId == t.assigneeId) = true) :
    timeSpentOf (l.map (fun e => if e.assigneeId == t.assigneeId then updAcc t e else e))
        t.assigneeId
      = timeSpentOf l t.assigneeId + taskHours t := by
  induction l with
  | nil => simp at h
  | cons e l ih =>
    rw [List.map_cons, timeSpentOf_cons, timeSpentOf_cons]
    by_cases he : (e.assigneeId == t.assigneeId) = true
    · rw [if_pos he]
      have h1 : ((updAcc t e).assigneeId == t.assigneeId) = true := he
      rw [h1, if_pos he]
      rfl
    · have h2 : l.any (fun e => e.assigneeId == t.assigneeId) = true := by
        rcases List.any_eq_true.1 h with ⟨x, hx, hpx⟩
        rcases List.mem_cons.1 hx with rfl | hx2
        · exact absurd hpx he
        · exact List.any_eq_true.2 ⟨x, hx2, hpx⟩
      rw [if_neg he]
      have h1 : ((e.assigneeId == t.assigneeId)) = false := by
        simpa using he
      rw [h1]
      simp only [Bool.false_eq_true, if_false]
      exact ih h2

theorem timeSpentOf_append_ne (l : List EmpAcc) (x : EmpAcc) (a : String)
    (hx : (x.assigneeId == a) = false) :
    timeSpentOf (l ++ [x]) a = timeSpentOf l a := by
  have h1 : (l ++ [x]).find? (fun e => e.assigneeId == a)
      = l.find? (fun e => e.assigneeId == a) := by
    rw [List.find?_append]
    simp [List.find?, hx]
  rw [timeSpentOf, h1, timeSpentOf]

theorem timeSpentOf_append_eq (l : List EmpAcc) (x : EmpAcc) (a : String)
    (hnone : l.find? (fun e => e.assigneeId == a) = none)
    (hx : (x.assigneeId == a) = true) :
    timeSpentOf (l ++ [x]) a = x.totalTimeSpent := by
  have h1 : (l ++ [x]).find? (fun e => e.assigneeId == a) = some x := by
    rw [List.find?_append, hnone]
    simp [List.find?, hx]
  rw [timeSpentOf, h1]

theorem timeSpentOf_step (acc : List EmpAcc) (t : TTask) (a : String) :
    timeSpentOf (stepTask acc t) a
      = timeSpentOf acc a + (if t.assigneeId == a then taskHours t else 0) := by
  rw [stepTask]
  by_cases hp : acc.any (fun e => e.assigneeId == t.assigneeId) = true
  · rw [if_pos hp]
    by_cases ha : (t.assigneeId == a) = true
    · have heq : t.assigneeId = a := by simpa [beq_iff_eq] using ha
      subst heq
      rw [timeSpentOf_map_eq acc t hp]
      simp
    · have hne : t.assigneeId ≠ a := by simpa [beq_iff_eq] using ha
      rw [timeSpentOf_map_ne acc t a hne]
      simp [ha]
  · rw [if_neg hp]
    have hall : ∀ x ∈ acc, (x.assigneeId == t.assigneeId) = false := by
      intro x hx
      by_contra hcon
      exact hp (List.any_eq_true.2 ⟨x, hx, Bool.not_eq_false _ ▸ hcon⟩)
    by_cases ha : (t.assigneeId == a) = true
    · have heq : t.assigneeId = a := by simpa [beq_iff_eq] using ha
      have hnone : acc.find? (fun e => e.assigneeId == a) = none := by
        rw [List.find?_eq_none]
        intro x hx
        rw [← heq]
        simp [hall x hx]
      have hxa : ((updAcc t ⟨t.assigneeId, 0, 0, []⟩).assigneeId == a) = true := ha
      rw [timeSpentOf_append_eq acc _ a hnone hxa]
      rw [timeSpentOf, hnone]
      simp [updAcc, ha]
    · have hxa : ((updAcc t ⟨t.assigneeId, 0, 0, []⟩).assigneeId == a) = false := by
        simpa using ha
      rw [timeSpentOf_append_ne acc _ a hxa]
      simp [ha]

theorem timeSpentOf_foldl (ts : List TTask) (acc : List EmpAcc) (a : String) :
    timeSpentOf (ts.foldl stepTask acc) a
      = timeSpentOf acc a + ((ts.filter (fun t => t.assigneeId == a)).map taskHours).sum := by
  induction ts generalizing acc with
  | nil => simp
  | cons t ts ih =>
    rw [List.foldl_cons, ih, timeSpentOf_step, List.filter_cons]
    by_cases ha : (t.assigneeId == a) = true
    · simp only [ha, if_true, List.map_cons, List.sum_cons]
      ring
    · simp [ha]

/-! ### Group-by counts and rate bounds -/

theorem lookupCount_cons (k : String) (n : ℕ) (g : List (String × ℕ)) (a : String) :
    lookupCount ((k, n) :: g) a = if k == a then n else lookupCount g a := by
  cases h : k == a <;> simp [lookupCount, List.find?, h]

theorem lookupCount_map_self (ts : List TTask) (a : String) (l : List String) :
    lookupCount (l.map (fun x => (x, ts.countP (fun t => t.assigneeId == x)))) a
      = if a ∈ l then ts.countP (fun t => t.assigneeId == a) else 0 := by
  induction l with
  | nil => simp [lookupCount]
  | cons x l ih =>
    rw [List.map_cons, lookupCount_cons]
    by_cases hx : (x == a) = true
    · have hxa : x = a := by simpa [beq_iff_eq] using hx
      subst hxa
      simp [hx]
    · have hne : x ≠ a := by simpa [beq_iff_eq] using hx
      simp only [hx, Bool.false_eq_true, if_false, ih, List.mem_cons]
      have : (a = x) = False := by simp [Ne.symm hne]
      simp [this]

theorem lookupCount_groupCount (ts : List TTask) (a : String) :
    lookupCount (groupCount ts) a = ts.countP (fun t => t.assigneeId == a) := by
  rw [groupCount, lookupCount_map_self]
  by_cases hm : a ∈ (ts.map (fun t => t.assigneeId)).dedup
  · rw [if_pos hm]
  · rw [if_neg hm]
    have hnm : a ∉ ts.map (fun t => t.assigneeId) := fun h => hm (List.mem_dedup.2 h)
    symm
    rw [List.countP_eq_zero]
    intro t ht
    simp only [beq_iff_eq]
    intro heq
    exact hnm (List.mem_map.2 ⟨t, ht, heq⟩)

theorem completed_le_total_counts (ts : List TTask) (a : String) :
    (completedOf ts).countP (fun t => t.assigneeId == a)
      ≤ ts.countP (fun t => t.assigneeId == a) := by
  rw [completedOf, List.countP_filter]
  exact List.countP_mono_left (fun x _ h => (Bool.and_eq_true _ _ ▸ h).1)

theorem rate2_bounds {c t : ℕ} (h : c ≤ t) :
    0 ≤ rate2 c t ∧ rate2 c t ≤ 100 := by
  rw [rate2]
  by_cases ht : 0 < t
  · rw [if_pos ht]
    have htq : (0 : ℚ) < t := by exact_mod_cast ht
    have hcq : ((c : ℕ) : ℚ) ≤ ((t : ℕ) : ℚ) := by exact_mod_cast h
    constructor
    · exact round2_nonneg (by positivity)
    · apply round2_le_hundred
      have h1 : ((c : ℕ) : ℚ) / t ≤ 1 := (div_le_one htq).2 hcq
      nlinarith
  · rw [if_neg ht]
    rw [round2_zero]
    norm_num

/-! ## Claim theorems -/

/-- Claim C1, counterexample: the fold counts a log entry toward the task
assignee's hours even when the log belongs to someone else.  Task `tC1` is
assigned to alice, its only log entry belongs to bob with 5 hours, yet
alice's accumulated totalTimeSpent is 5, not 0. -/
theorem helperLog_counted_counterexample :
    tC1.assigneeId = "alice" ∧ (∀ l ∈ tC1.timeLogs, l.userId ≠ tC1.assigneeId) ∧
    timeSpentOf (employeePerformance [tC1]) "alice" = 5 ∧ (5 : ℚ) ≠ 0 := by
  refine ⟨rfl, ?_, ?_, by norm_num⟩
  · intro l hl
    simp only [tC1, List.mem_singleton] at hl
    subst hl
    decide
  · have h1 : timeSpentOf (employeePerformance [tC1]) "alice" = 0 + taskHours tC1 := rfl
    rw [h1, taskHours]
    simp [tC1]

/-- Claim C1, amended: for every assignee, the hours accumulated into
totalTimeSpent are exactly the sum, over that assignee's completed tasks,
of ALL time-log and external-log hours attached to the task — log entries
owned by users other than the assignee are included, not filtered out. -/
theorem employeeHours_unfiltered (ts : List TTask) (a : String) :
    timeSpentOf (employeePerformance ts) a
      = (((completedOf ts).filter (fun t => t.assigneeId == a)).map taskHours).sum := by
  rw [employeePerformance, timeSpentOf_foldl]
  simp [timeSpentOf_nil]

/-! ### Org-loop structure lemmas -/

theorem orgStep_nil (acc : OrgAcc) (p : OrgProject) (h : projectTasks p = []) :
    orgStep acc p = acc := by
  rw [orgStep]
  simp [h]

theorem orgStep_totals (acc : OrgAcc) (p : OrgProject) :
    (orgStep acc p).totalTasks = acc.totalTasks + (projectTasks p).length ∧
    (orgStep acc p).completedTasks
      = acc.completedTasks
        + ((projectTasks p).filter (fun t => isCompleted t.status)).length := by
  rw [orgStep]
  by_cases h : 0 < (projectTasks p).length
  · rcases hm : ((projectTasks p).map (fun t => t.updatedAt)).max? with _ | latest <;>
      simp [h, hm]
  · have h0 : projectTasks p = [] := by
      rw [← List.length_eq_zero]
      omega
    simp [h, h0]

theorem orgAgg_foldl_totals (ps : List OrgProject) (acc : OrgAcc) :
    (ps.foldl orgStep acc).totalTasks
        = acc.totalTasks + (ps.map (fun p => (projectTasks p).length)).sum ∧
    (ps.foldl orgStep acc).completedTasks
        = acc.completedTasks
          + (ps.map (fun p =>
              ((projectTasks p).filter (fun t => isCompleted t.status)).length)).sum := by
  induction ps generalizing acc with
  | nil => simp
  | cons p ps ih =>
    rw [List.foldl_cons]
    rcases ih (orgStep acc p) with ⟨ih1, ih2⟩
    rcases orgStep_totals acc p with ⟨h1, h2⟩
    constructor
    · rw [ih1, h1, List.map_cons, List.sum_cons]
      omega
    · rw [ih2, h2, List.map_cons, List.sum_cons]
      omega

/-- Claim C4: a zero-task project is excluded from the per-project lists and
contributes nothing to the organization totals; the organization totals
are the plain sums of per-project counts, so the overall completion rate
is totals-based; and on the spec's scenario (project A: 2 of 4 tasks DONE,
project B: no tasks) the overall rate is 50 and B appears in neither
per-project list. -/
theorem orgDashboard_totals_and_exclusion :
    (∀ (ps1 ps2 : List OrgProject) (p : OrgProject), projectTasks p = [] →
      orgAgg (ps1 ++ p :: ps2) = orgAgg (ps1 ++ ps2)) ∧
    (∀ ps : List OrgProject,
      (orgAgg ps).totalTasks = (ps.map (fun p => (projectTasks p).length)).sum ∧
      (orgAgg ps).completedTasks
        = (ps.map (fun p =>
            ((projectTasks p).filter (fun t => isCompleted t.status)).length)).sum) ∧
    (orgOverall [projA, projB] = 50 ∧
      (orgAgg [projA, projB]).projectCompletionRates.map Prod.fst = ["A"] ∧
      (orgAgg [projA, projB]).projectDurations.map Prod.fst = ["A"]) := by
  refine ⟨?_, ?_, ?_, ?_, ?_⟩
  · intro ps1 ps2 p h
    rw [orgAgg, orgAgg, List.foldl_append, List.foldl_append, List.foldl_cons,
      orgStep_nil _ _ h]
  · intro ps
    simpa [orgAgg] using orgAgg_foldl_totals ps ⟨0, 0, 0, [], []⟩
  · have h1 : (orgAgg [projA, projB]).completedTasks = 2 := rfl
    have h2 : (orgAgg [projA, projB]).totalTasks = 4 := rfl
    have h3 : orgOverall [projA, projB] = rate2 2 4 := by
      rw [orgOverall, h1, h2]
    rw [h3, rate2, if_pos (by norm_num)]
    have h4 : ((2 : ℕ) : ℚ) / ((4 : ℕ) : ℚ) * 100 = ((50 : ℕ) : ℚ) := by norm_num
    rw [h4, round2_natCast]
    norm_num
  · rfl
  · rfl

/-- Witness for `orgDashboard_totals_and_exclusion`: dropping the
zero-task project B changes nothing. -/
theorem orgDashboard_totals_witness :
    orgAgg (projB :: [projA]) = orgAgg [projA] :=
  orgDashboard_totals_and_exclusion.1 [] [projA] projB rfl

/-- Claim C10: every employee row of the team dashboard reports
completedTasks ≤ totalTasks and a completionRate within [0, 100], because
both grouped counts come from the same task set (the completed group a
status-restricted subset) and a lookup miss defaults to 0. -/
theorem employee_counts_consistent (ts : List TTask) :
    ∀ e ∈ (teamDashboard ts).employees,
      e.completedTasks ≤ e.totalTasks ∧ 0 ≤ e.completionRate ∧ e.completionRate ≤ 100 := by
  intro e he
  have he2 : e ∈ sortDesc ((employeePerformance ts).map (deriveEmployee ts)) := he
  have hperm := List.mergeSort_perm ((employeePerformance ts).map (deriveEmployee ts))
    (fun a b => decide (b.efficiency ≤ a.efficiency))
  have hmem : e ∈ (employeePerformance ts).map (deriveEmployee ts) :=
    hperm.mem_iff.1 he2
  rcases List.mem_map.1 hmem with ⟨acc, _, rfl⟩
  have hcd : (deriveEmployee ts acc).completedTasks
      = lookupCount (groupCount (completedOf ts)) acc.assigneeId := rfl
  have htt : (deriveEmployee ts acc).totalTasks
      = lookupCount (groupCount ts) acc.assigneeId := rfl
  have hcr : (deriveEmployee ts acc).completionRate
      = rate2 (lookupCount (groupCount (completedOf ts)) acc.assigneeId)
          (lookupCount (groupCount ts) acc.assigneeId) := rfl
  have hle : lookupCount (groupCount (completedOf ts)) acc.assigneeId
      ≤ lookupCount (groupCount ts) acc.assigneeId := by
    rw [lookupCount_groupCount, lookupCount_groupCount]
    exact completed_le_total_counts ts acc.assigneeId
  rw [hcd, htt, hcr]
  exact ⟨hle, (rate2_bounds hle).1, (rate2_bounds hle).2⟩

/-- Witness for `employee_counts_consistent` on the one-employee scope
`ts1`. -/
theorem employee_counts_consistent_witness :
    e1.completedTasks ≤ e1.totalTasks ∧ 0 ≤ e1.completionRate ∧ e1.completionRate ≤ 100 := by
  have hmap : (employeePerformance ts1).map (deriveEmployee ts1)
      = [deriveEmployee ts1
          (updAcc ⟨"t1", "alice", "DONE", 0, 0, [], []⟩ ⟨"alice", 0, 0, []⟩)] := rfl
  have harr : (teamDashboard ts1).employees
      = [deriveEmployee ts1
          (updAcc ⟨"t1", "alice", "DONE", 0, 0, [], []⟩ ⟨"alice", 0, 0, []⟩)] := by
    show ((employeePerformance ts1).map (deriveEmployee ts1)).mergeSort
        (fun a b => decide (b.efficiency ≤ a.efficiency)) = _
    rw [hmap, List.mergeSort_singleton]
  have he1d : e1 = deriveEmployee ts1
      (updAcc ⟨"t1", "alice", "DONE", 0, 0, [], []⟩ ⟨"alice", 0, 0, []⟩) := by
    rw [e1, harr]
    rfl
  apply employee_counts_consistent ts1 e1
  rw [harr, he1d]
  exact List.mem_singleton.2 rfl

/-- Claim C2, counterexample: the source computes the efficiency denominator as
`totalTimeSpent || 1`, which is `totalTimeSpent` itself for any non-zero
value; at one completed task and half an hour logged this yields 20, while
the claimed `max(totalTimeSpent, 1)` denominator yields 10. -/
theorem efficiency_denominator_counterexample :
    efficiency 1 (1 / 2) ≠ efficiencySpec 1 (1 / 2) := by
  have h1 : ((1 : ℕ) : ℚ) / (if (1 / 2 : ℚ) = 0 then 1 else (1 / 2 : ℚ)) * 10
      = ((20 : ℤ) : ℚ) := by norm_num
  have h2 : ((1 : ℕ) : ℚ) / max (1 / 2 : ℚ) 1 * 10 = ((10 : ℤ) : ℚ) := by
    rw [max_eq_right (by norm_num : (1 / 2 : ℚ) ≤ 1)]
    norm_num
  rw [efficiency, efficiencySpec, h1, h2, round2_intCast, round2_intCast]
  norm_num

/-- Claim C2, amended: the per-employee efficiency is
`completedCount / (totalHoursSpent || 1) × 10` rounded to two decimals:
it is 0 when no task is completed, `completedCount × 10` when zero hours
are logged, and agrees with the spec's `max(totalHoursSpent, 1)` floor only
for `totalHoursSpent ≥ 1`; for `0 < totalHoursSpent < 1` the denominator
is `totalHoursSpent` itself, not 1. -/
theorem efficiency_denominator_cases (c : ℕ) (h : ℚ) :
    (c = 0 → efficiency c h = 0) ∧
    (h = 0 → efficiency c h = 10 * c) ∧
    (1 ≤ h → efficiency c h = efficiencySpec c h) ∧
    (0 < h → h < 1 → efficiency c h = round2 ((c : ℚ) / h * 10)) := by
  refine ⟨?_, ?_, ?_, ?_⟩
  · rintro rfl
    rw [efficiency]
    norm_num [round2_zero]
  · rintro rfl
    rw [efficiency, if_pos rfl]
    have h1 : ((c : ℕ) : ℚ) / 1 * 10 = ((10 * c : ℕ) : ℚ) := by push_cast; ring
    rw [h1, round2_natCast]
    push_cast
    ring
  · intro h1
    have hne : h ≠ 0 := by linarith
    rw [efficiency, efficiencySpec, if_neg hne, max_eq_left h1]
  · intro h0 h1
    rw [efficiency, if_neg (ne_of_gt h0)]

/-- Witness for `efficiency_denominator_cases` at `c = 2`,
`h = 1/2`. -/
theorem efficiency_denominator_cases_witness :
    efficiency 2 (1 / 2) = round2 (((2 : ℕ) : ℚ) / (1 / 2) * 10) :=
  (efficiency_denominator_cases 2 (1 / 2)).2.2.2 (by norm_num) (by norm_num)

/-- Claim C9, counterexample: for `end < start` by less than one full day the
duration is 0, not negative: with `start = 1 ms` and `end = 0 ms`,
`Math.ceil(-1 / 86400000) = 0`. -/
theorem durationDays_subday_counterexample :
    (0 : ℤ) < 1 ∧ durationDays 1 0 = 0 ∧ ¬ durationDays 1 0 < 0 := by
  have h : durationDays 1 0 = 0 := by
    rw [durationDays]
    rw [Int.ceil_eq_iff]
    constructor <;> norm_num
  exact ⟨by norm_num, h, by rw [h]; norm_num⟩

/-- Claim C9, amended: duration is `ceil((end − start) ms / 86,400,000)` (also
the per-task completion time); it is ≥ 0 whenever `end ≥ start`, and for
`end < start` it is ≤ 0 but only strictly negative when the deficit
reaches one full day — a sub-day deficit yields 0.  Negative values are
surfaced as-is, never clamped. -/
theorem durationDays_sign_cases (s e : ℤ) :
    (s ≤ e → 0 ≤ durationDays s e) ∧
    (e < s → durationDays s e ≤ 0) ∧
    (e ≤ s - 86400000 → durationDays s e < 0) ∧
    (s - 86400000 < e → e < s → durationDays s e = 0) ∧
    (∀ t : TTask, (mkTaskRec t).completionTimeDays = durationDays t.createdAt t.updatedAt) := by
  refine ⟨?_, ?_, ?_, ?_, fun _ => rfl⟩
  · intro h
    apply Int.ceil_nonneg
    apply div_nonneg _ (by norm_num)
    exact_mod_cast sub_nonneg.mpr h
  · intro h
    have hc : ((e : ℚ)) ≤ (s : ℚ) := by exact_mod_cast le_of_lt h
    rw [durationDays, Int.ceil_le]
    rw [div_le_iff₀ (by norm_num : (0 : ℚ) < 86400000)]
    push_cast
    nlinarith
  · intro h
    have hc : ((e : ℚ)) ≤ (s : ℚ) - 86400000 := by exact_mod_cast h
    have h1 : durationDays s e ≤ -1 := by
      rw [durationDays, Int.ceil_le]
      rw [div_le_iff₀ (by norm_num : (0 : ℚ) < 86400000)]
      push_cast
      nlinarith
    omega
  · intro h1 h2
    have hc1 : (s : ℚ) - 86400000 < (e : ℚ) := by exact_mod_cast h1
    have hc2 : ((e : ℚ)) < (s : ℚ) := by exact_mod_cast h2
    rw [durationDays, Int.ceil_eq_iff]
    push_cast
    constructor
    · rw [lt_div_iff₀ (by norm_num : (0 : ℚ) < 86400000)]
      nlinarith
    · rw [div_le_iff₀ (by norm_num : (0 : ℚ) < 86400000)]
      nlinarith

/-- Witness for `durationDays_sign_cases`: same-instant, sub-day-behind,
and full-day-behind end instants. -/
theorem durationDays_sign_cases_witness :
    0 ≤ durationDays 0 3 ∧ durationDays 5 2 ≤ 0 ∧
    durationDays 86400005 5 < 0 ∧ durationDays 50 20 = 0 :=
  ⟨(durationDays_sign_cases 0 3).1 (by norm_num),
   (durationDays_sign_cases 5 2).2.1 (by norm_num),
   (durationDays_sign_cases 86400005 5).2.2.1 (by norm_num),
   (durationDays_sign_cases 50 20).2.2.2.1 (by norm_num) (by norm_num)⟩

/-- Claim C7: in the cache model, `set(k, v)` immediately followed by `get(k)`
returns `v`, and after `flushAll()` every `get` returns absent, whatever
TTL each entry had remaining. -/
theorem cache_roundtrip_and_flush :
    ∀ (V : Type) (c : Cache V) (k : String) (v : V) (now : ℕ),
      cacheGet (cacheSet c k v now) k now = some v ∧
      (∀ (k2 : String) (now2 : ℕ), cacheGet (cacheFlushAll c) k2 now2 = none) := by
  intro V c k v now
  constructor
  · rw [cacheGet, cacheSet]
    rw [List.find?_cons_of_pos _ (by simp)]
    simp
  · intro k2 now2
    rfl

/-- Claim C8: every stored entry carries TTL 86,400 seconds from the moment of
the `set`; a `get` issued 86,400 or more seconds after the `set` returns
absent; and any `get` that returns a value does so from an entry whose
age is still below its TTL. -/
theorem cache_ttl_invariant :
    ∀ (V : Type) (c : Cache V) (k : String) (v : V) (t now : ℕ),
      ((cacheSet c k v t).head? = some (k, ⟨v, t, 86400⟩)) ∧
      (t + 86400 ≤ now → cacheGet (cacheSet c k v t) k now = none) ∧
      (∀ w : V, cacheGet c k now = some w →
        ∃ e ∈ c, e.1 = k ∧ now < e.2.setTime + e.2.ttl ∧ e.2.value = w) := by
  intro V c k v t now
  refine ⟨rfl, ?_, ?_⟩
  · intro h
    rw [cacheGet, cacheSet]
    rw [List.find?_cons_of_pos _ (by simp)]
    simp only
    rw [if_neg (by omega)]
  · intro w hw
    rw [cacheGet] at hw
    cases hf : c.find? (fun e => e.1 == k) with
    | none => rw [hf] at hw; simp at hw
    | some e =>
      rw [hf] at hw
      simp only at hw
      by_cases ht : now < e.2.setTime + e.2.ttl
      · rw [if_pos ht] at hw
        refine ⟨e, List.mem_of_find?_eq_some hf, ?_, ht, by injection hw⟩
        have := List.find?_some hf
        simpa [beq_iff_eq] using this
      · rw [if_neg ht] at hw
        exact absurd hw (by simp)

/-- Witness for `cache_ttl_invariant`: a concrete entry expires exactly at
its TTL, and a fresh hit comes from an in-TTL entry. -/
theorem cache_ttl_invariant_witness :
    cacheGet (cacheSet ([] : Cache ℕ) "a" 7 0) "a" 86400 = none ∧
    ∃ e ∈ cacheSet ([] : Cache ℕ) "a" 7 0,
      e.1 = "a" ∧ 10 < e.2.setTime + e.2.ttl ∧ e.2.value = 7 :=
  ⟨(cache_ttl_invariant ℕ [] "a" 7 0 86400).2.1 (by decide),
   (cache_ttl_invariant ℕ (cacheSet ([] : Cache ℕ) "a" 7 0) "a" 7 0 10).2.2 7 rfl⟩

/-- Claim C3: the completion-rate used at every site (org overall, per-project,
per-workflow, per-assignee) is 0 when the task total is 0 — never a
division error — and otherwise `(completed / total) × 100` rounded to two
decimals. -/
theorem completionRate_sites :
    (∀ c t : ℕ, (t = 0 → rate2 c t = 0) ∧
      (0 < t → rate2 c t = round2 (((c : ℕ) : ℚ) / t * 100))) ∧
    (∀ tasks : List OrgTask, projectCompletionRate tasks
      = rate2 ((tasks.filter (fun t => isCompleted t.status)).length) tasks.length) ∧
    (∀ statuses : List String, workflowCompletionRate statuses
      = rate2 ((statuses.filter isCompleted).length) statuses.length) ∧
    (∀ (ts : List TTask) (e : EmpAcc), (deriveEmployee ts e).completionRate
      = rate2 (lookupCount (groupCount (completedOf ts)) e.assigneeId)
          (lookupCount (groupCount ts) e.assigneeId)) ∧
    (∀ ps : List OrgProject, orgOverall ps
      = rate2 (orgAgg ps).completedTasks (orgAgg ps).totalTasks) := by
  refine ⟨?_, fun _ => rfl, fun _ => rfl, fun _ _ => rfl, fun _ => rfl⟩
  intro c t
  constructor
  · rintro rfl
    rw [rate2, if_neg (by omega)]
    exact round2_zero
  · intro ht
    rw [rate2, if_pos ht]

/-- Witness for `completionRate_sites`: a zero-total rate is 0 and a
non-zero-total rate is the rounded quotient. -/
theorem completionRate_sites_witness :
    rate2 3 0 = 0 ∧ rate2 1 2 = round2 (((1 : ℕ) : ℚ) / 2 * 100) := by
  constructor
  · exact (completionRate_sites.1 3 0).1 rfl
  · have h := (completionRate_sites.1 1 2).2 (by omega)
    simpa using h

/-- Claim C6: a team-dashboard scope that matches no tasks yields the complete
zero-filled payload instead of an error: the employees and topPerformers
lists are empty and all stats are 0 (the `length || 1` denominators keep
the averages well-defined). -/
theorem teamDashboard_empty_scope :
    (teamDashboard []).employees = [] ∧
    (teamDashboard []).topPerformers = [] ∧
    (teamDashboard []).totalEmployees = 0 ∧
    (teamDashboard []).averageCompletionRate = 0 ∧
    (teamDashboard []).averageEfficiency = 0 := by
  have harr : sortDesc ((employeePerformance ([] : List TTask)).map (deriveEmployee [])) = [] := by
    simp [employeePerformance, completedOf, sortDesc]
  refine ⟨?_, ?_, ?_, ?_, ?_⟩ <;>
    simp [teamDashboard, harr, round2_zero]

/-- Claim C5: in every team dashboard, the employees array is sorted in
descending order of efficiency, topPerformers is its first five elements
(all of them when there are at most five), and totalEmployees is its
length. -/
theorem teamDashboard_sorted_top5 (ts : List TTask) :
    List.Pairwise (fun a b => b.efficiency ≤ a.efficiency) (teamDashboard ts).employees ∧
    (teamDashboard ts).topPerformers = (teamDashboard ts).employees.take 5 ∧
    (teamDashboard ts).totalEmployees = (teamDashboard ts).employees.length ∧
    ((teamDashboard ts).employees.length ≤ 5 →
      (teamDashboard ts).topPerformers = (teamDashboard ts).employees) := by
  refine ⟨?_, rfl, rfl, ?_⟩
  · have hs := @List.sorted_mergeSort Employee
      (fun (a b : Employee) => decide (b.efficiency ≤ a.efficiency))
      (fun a b c hab hbc => by
        simp only [decide_eq_true_eq] at *
        exact le_trans hbc hab)
      (fun a b => by
        simp only [Bool.or_eq_true, decide_eq_true_eq]
        exact le_total b.efficiency a.efficiency)
      ((employeePerformance ts).map (deriveEmployee ts))
    have h2 : (teamDashboard ts).employees
        = ((employeePerformance ts).map (deriveEmployee ts)).mergeSort
            (fun a b => decide (b.efficiency ≤ a.efficiency)) := rfl
    rw [h2]
    exact hs.imp (fun h => by simpa using h)
  · intro hlen
    have h2 : (teamDashboard ts).topPerformers
        = (teamDashboard ts).employees.take 5 := rfl
    rw [h2]
    exact List.take_of_length_le hlen

/-- Witness for `teamDashboard_sorted_top5`: with an empty scope there are
fewer than five employees, so topPerformers is the whole array. -/
theorem teamDashboard_sorted_top5_witness :
    (teamDashboard []).topPerformers = (teamDashboard []).employees :=
  (teamDashboard_sorted_top5 []).2.2.2
    (by simp [teamDashboard, sortDesc, employeePerformance, completedOf])

end KPI
